import Mathlib

/-!
# A verification development of the quarkvm prefix-registry VM

Shallow embedding of the parts of the repository that the checked properties
are about: the lifeline transaction (src/chain/lifeline_tx.go), the claim
transaction (modelled from the spec; only its test is in the sources), the
lookback-window reader and the cost/difficulty recomputation of the block
engine together with the Verified/Accepted/Rejected lifecycle
(src/cmd/quarkcli/cmd/genesis.go), and the signer (src/unnamed/part_000).

Machine integers: uint64 values are Nat with an explicit modulus `W64` where
the Go code can wrap, int64 values are Int.  A Go integer division by zero
is a runtime panic; the embedding surfaces it as the error `TxErr.divByZero`.
Chain constants (ExpiryTime, PrefixRenewalDiscount, MinBlockCost,
MinDifficulty, LookbackWindow, BlockTarget, TargetTransactions) and the
function prefixUnits are not under src/ and are genesis parameters per the
spec (sections 4.5, 4.7 and 6); they are taken as arguments throughout.
-/

/-- The uint64 modulus 2^64, written as a literal. -/
def W64 : Nat := 18446744073709551616

/-- chain.PrefixInfo (spec section 3): owner fingerprint, unit weight and
expiry (unix seconds, uint64). -/
structure PrefixInfo where
  owner : List Nat
  units : Nat
  expiry : Nat
  deriving DecidableEq, Repr

/-- The transaction-level error kinds the modelled operations surface
(spec section 7).  `divByZero` stands for a Go integer division-by-zero
panic, which aborts execution rather than returning an error value. -/
inductive TxErr where
  | prefixMissing
  | prefixNotExpired
  | publicKeyMismatch
  | divByZero
  deriving DecidableEq, Repr

/-- The prefix registry: primary records keyed by the prefix bytes.  The
expiry index of spec section 4.3 is bookkeeping over the same records and
plays no part in the checked properties. -/
abbrev Store := List (List Nat × PrefixInfo)

/-- Modelled from the spec: chain.GetPrefixInfo is not under src/ (only its
callers are); spec section 4.3 `get(prefix) -> (info, exists)`, a lookup of
the primary record. -/
def GetPrefixInfo : Store → List Nat → Option PrefixInfo
  | [], _ => none
  | (q, i) :: rest, pfx => if q = pfx then some i else GetPrefixInfo rest pfx

/-- Modelled from the spec: chain.PutPrefixInfo is not under src/; spec
section 4.3 `put(prefix, info, prev_expiry)` writes the primary record
(the expiry-index maintenance keyed by prev_expiry is outside the checked
properties). -/
def PutPrefixInfo : Store → List Nat → PrefixInfo → Store
  | [], pfx, i => [(pfx, i)]
  | (q, j) :: rest, pfx, i =>
      if q = pfx then (pfx, i) :: rest else (q, j) :: PutPrefixInfo rest pfx i

/-- chain.addLife from src/chain/lifeline_tx.go.  `pu` stands for the
prefixUnits function and `expiryTime`, `renewalDiscount` for the constants
ExpiryTime and PrefixRenewalDiscount, none of which are under src/ (genesis
parameters per spec section 6).  Returns the error, if any, and the
caller-visible store.  The Go source computes
`prefixPenalty := prefixUnits(prefix) / PrefixRenewalDiscount` with no lower
bound and then divides by it, so a zero divisor anywhere in
`ExpiryTime / i.Units / prefixUnits(prefix) / prefixPenalty` is a Go
division-by-zero panic, surfaced here as `TxErr.divByZero`. -/
def addLife (pu : List Nat → Nat) (expiryTime renewalDiscount : Nat)
    (db : Store) (pfx : List Nat) : Option TxErr × Store :=
  match GetPrefixInfo db pfx with
  | none => (some TxErr.prefixMissing, db)
  | some i =>
      if renewalDiscount = 0 then (some TxErr.divByZero, db)
      else
        let pp := pu pfx / renewalDiscount
        if i.units = 0 ∨ pu pfx = 0 ∨ pp = 0 then (some TxErr.divByZero, db)
        else
          let amount := expiryTime / i.units / pu pfx / pp
          (none, PutPrefixInfo db pfx { i with expiry := (i.expiry + amount) % W64 })

/-- LifelineTx.Execute from src/chain/lifeline_tx.go: delegates to addLife on
the transaction's prefix.  The block time is ignored and the sender plays no
part (the Go method does not read it); both are kept as arguments to state
that independence. -/
def LifelineExecute (pu : List Nat → Nat) (expiryTime renewalDiscount : Nat)
    (_sender : List Nat) (_blockTime : Nat) (db : Store) (pfx : List Nat) :
    Option TxErr × Store :=
  addLife pu expiryTime renewalDiscount db pfx

/-- Modelled from the spec: ClaimTx.Execute is not under src/ (only its test
TestClaimTx, src/unnamed/part_001).  Spec section 4.5: a 33-byte prefix must
equal the sender's serialized public key (the pre-check the test's first
case exercises inside Execute), an entry with `expiry > block_time` fails
PrefixNotExpired, and otherwise the entry is created or overwritten with
owner = sender, units = prefixUnits(prefix), expiry = block_time + ExpiryTime. -/
def ClaimExecute (pu : List Nat → Nat) (expiryTime : Nat) (sender : List Nat)
    (blockTime : Nat) (db : Store) (pfx : List Nat) : Option TxErr × Store :=
  if pfx.length = 33 ∧ pfx ≠ sender then (some TxErr.publicKeyMismatch, db)
  else
    match GetPrefixInfo db pfx with
    | some i =>
        if blockTime < i.expiry then (some TxErr.prefixNotExpired, db)
        else (none, PutPrefixInfo db pfx ⟨sender, pu pfx, (blockTime + expiryTime) % W64⟩)
    | none => (none, PutPrefixInfo db pfx ⟨sender, pu pfx, (blockTime + expiryTime) % W64⟩)

/-- The chain.Block fields the vm claims read: id, parent id (0 models the
empty ids.ID, i.e. genesis), timestamp (int64), the ids of its transactions,
its difficulty and its cost. -/
structure BlockM where
  id : Nat
  prnt : Nat
  tmstmp : Int
  txs : List Nat
  difficulty : Nat
  cost : Nat
  deriving DecidableEq, Repr

/-- VM.readWindow from src/cmd/quarkcli/cmd/genesis.go.  The parent chain
starting at the block named lastID is materialized as the list argument
(the Go code follows Prnt pointers through getBlock); the walk continues
while the current block is inside the lookback window or is the starting
block, visits each block by calling `f`, and returns when `f` yields false
or right after visiting genesis.  The result is the list of visited blocks
in visit (child-to-parent) order. -/
def readWindow (lookbackWindow currTime : Int) (lastID : Nat) (f : BlockM → Bool) :
    List BlockM → List BlockM
  | [] => []
  | b :: rest =>
      if currTime - b.tmstmp ≤ lookbackWindow ∨ b.id = lastID then
        if f b then
          if b.prnt = 0 then [b]
          else b :: readWindow lookbackWindow currTime lastID f rest
        else [b]
      else []

/-- Holds when every visited block except possibly the last had its callback
return true and was not genesis: the walk stopped as soon as the callback
returned false or genesis was visited. -/
def chainStop (f : BlockM → Bool) : List BlockM → Bool
  | [] => true
  | [_] => true
  | b :: rest => (f b && b.prnt != 0) && chainStop f rest

/-- The new-block-cost computation of VM.Recents
(src/cmd/quarkcli/cmd/genesis.go): clamp the last cost up to MinBlockCost,
then add `BlockTarget - elapsed` when the block came early, else subtract
the excess without going below MinBlockCost.  The uint64 casts of the int64
differences and the uint64 addition carry the explicit W64 modulus. -/
def newBlockCost (minBlockCost : Nat) (blockTarget currTime tmstmp : Int)
    (lastCost : Nat) : Nat :=
  let secondsSinceLast := currTime - tmstmp
  let c0 := if lastCost < minBlockCost then minBlockCost else lastCost
  if secondsSinceLast < blockTarget then
    (c0 + ((blockTarget - secondsSinceLast) % (W64 : Int)).toNat) % W64
  else
    let possibleDiff := ((secondsSinceLast - blockTarget) % (W64 : Int)).toNat
    if possibleDiff < c0 - minBlockCost then c0 - possibleDiff else minBlockCost

/-- The new-min-difficulty computation of VM.Recents
(src/cmd/quarkcli/cmd/genesis.go): clamp the last difficulty up to
MinDifficulty; with more recent transactions than the target add one, with
fewer subtract `elapsed/LookbackWindow + 1` without going below
MinDifficulty, otherwise keep it.  Go's truncating int64 division is
`Int.tdiv`; casts and the uint64 increment carry the explicit W64 modulus. -/
def newMinDifficulty (minDifficulty targetTransactions : Nat)
    (lookbackWindow currTime tmstmp : Int) (lastDifficulty recentTxs : Nat) : Nat :=
  let secondsSinceLast := currTime - tmstmp
  let d0 := if lastDifficulty < minDifficulty then minDifficulty else lastDifficulty
  if targetTransactions < recentTxs then (d0 + 1) % W64
  else if recentTxs < targetTransactions then
    let elapsedWindows := (((Int.tdiv secondsSinceLast lookbackWindow) % (W64 : Int)).toNat + 1) % W64
    if elapsedWindows < d0 - minDifficulty then d0 - elapsedWindows else minDifficulty
  else d0

/-- VM.Recents from src/cmd/quarkcli/cmd/genesis.go: walk the lookback
window from the last block accumulating the distinct block ids and
transaction ids (the Go ids.Set), then recompute block cost and minimum
difficulty.  `anc` is the materialized parent chain of `lastBlock`. -/
def Recents (minBlockCost minDifficulty targetTransactions : Nat)
    (lookbackWindow blockTarget currTime : Int) (lastBlock : BlockM)
    (anc : List BlockM) : List Nat × List Nat × Nat × Nat :=
  let window := readWindow lookbackWindow currTime lastBlock.id (fun _ => true)
      (lastBlock :: anc)
  let recentBlockIDs := (window.map (fun b => b.id)).dedup
  let recentTxIDs := (window.flatMap (fun b => b.txs)).dedup
  (recentBlockIDs, recentTxIDs,
    newBlockCost minBlockCost blockTarget currTime lastBlock.tmstmp lastBlock.cost,
    newMinDifficulty minDifficulty targetTransactions lookbackWindow currTime
      lastBlock.tmstmp lastBlock.difficulty recentTxIDs.length)

/-- The signature error of chain.DeriveSender (src/unnamed/part_000). -/
inductive SigErr where
  | invalidSignature
  deriving DecidableEq, Repr

/-- chain.Sign from src/unnamed/part_000: delegate to the secp256k1
primitive (`cryptoSign`, abstract: the spec scopes the ECDSA primitive out
and uses only its contract), then add the legacy adjustment 27 to byte 64.
Go byte arithmetic wraps, hence the modulus 256. -/
def Sign {K : Type} (cryptoSign : List Nat → K → List Nat) (dh : List Nat)
    (priv : K) : List Nat :=
  let sig := cryptoSign dh priv
  sig.set 64 ((sig.getD 64 0 + 27) % 256)

/-- chain.DeriveSender from src/unnamed/part_000: a signature whose length
is not 65 is rejected as InvalidSignature without consulting the recovery
primitive; otherwise the signature is copied, 27 is subtracted from byte 64
of the copy (Go byte arithmetic: plus 229 modulo 256) and the copy is passed
to `sigToPub` (crypto.SigToPub, abstract).  The components are the recovered
key (if any), the length error (if any), and the caller's signature buffer
after the call: the only write in the Go source targets the copy `sigcpy`,
so the returned buffer is the argument itself. -/
def DeriveSender {P : Type} (sigToPub : List Nat → List Nat → Option P)
    (dh sig : List Nat) : Option P × Option SigErr × List Nat :=
  if sig.length ≠ 65 then (none, some SigErr.invalidSignature, sig)
  else
    let sigcpy := sig.take 65
    let sigcpy2 := sigcpy.set 64 ((sigcpy.getD 64 0 + 229) % 256)
    (sigToPub dh sigcpy2, none, sig)

/-- The block data VM.Verified, VM.Accepted and VM.Rejected read: the block
id and its parent id. -/
structure VBlock where
  id : Nat
  prnt : Nat
  deriving DecidableEq, Repr

/-- The VM fields the Verified/Accepted/Rejected lifecycle touches
(src/cmd/quarkcli/cmd/genesis.go): the keys of the verifiedBlocks map,
preferred and lastAccepted. -/
structure VMState where
  verifiedBlocks : List Nat
  preferred : Nat
  lastAccepted : Nat
  deriving DecidableEq, Repr

/-- VM.Verified: re-point preferred when the block extends it, then add the
block id to the verifiedBlocks map (a map insert: already-present keys are
not duplicated). -/
def vmVerified (b : VBlock) (s : VMState) : VMState :=
  { s with
    preferred := if b.prnt = s.preferred then b.id else s.preferred,
    verifiedBlocks :=
      if b.id ∈ s.verifiedBlocks then s.verifiedBlocks else b.id :: s.verifiedBlocks }

/-- VM.Rejected: delete the block id from verifiedBlocks. -/
def vmRejected (b : VBlock) (s : VMState) : VMState :=
  { s with verifiedBlocks := s.verifiedBlocks.filter (fun x => x != b.id) }

/-- VM.Accepted: record lastAccepted and delete the block id from
verifiedBlocks. -/
def vmAccepted (b : VBlock) (s : VMState) : VMState :=
  { s with lastAccepted := b.id,
           verifiedBlocks := s.verifiedBlocks.filter (fun x => x != b.id) }

/-- A call into the VM's block lifecycle. -/
inductive VMOp where
  | verified (b : VBlock)
  | accepted (b : VBlock)
  | rejected (b : VBlock)
  deriving DecidableEq, Repr

/-- One lifecycle call applied to the VM state. -/
def vmStep (s : VMState) : VMOp → VMState
  | VMOp.verified b => vmVerified b s
  | VMOp.accepted b => vmAccepted b s
  | VMOp.rejected b => vmRejected b s

/-- A sequence of lifecycle calls applied in order. -/
def vmRun (s : VMState) : List VMOp → VMState
  | [] => s
  | op :: rest => vmRun (vmStep s op) rest

/-- The VM state right after Initialize: verifiedBlocks is a fresh empty map. -/
def vmInit : VMState := ⟨[], 0, 0⟩

/-- The block ids passed to Accepted or Rejected in a call sequence. -/
def terminalIds : List VMOp → List Nat
  | [] => []
  | VMOp.verified _ :: rest => terminalIds rest
  | VMOp.accepted b :: rest => b.id :: terminalIds rest
  | VMOp.rejected b :: rest => b.id :: terminalIds rest

/-- Whether the call is Verified on the given block id. -/
def verifiesId (i : Nat) : VMOp → Bool
  | VMOp.verified b => b.id == i
  | _ => false

/-- No id is passed to Verified after it has been passed to Accepted or
Rejected: the consensus engine's contract that Verify precedes Accept and
Reject, which are terminal (spec sections 3 and 5). -/
def noRevive : List VMOp → Bool
  | [] => true
  | VMOp.verified _ :: rest => noRevive rest
  | VMOp.accepted b :: rest =>
      (rest.all (fun op => !(verifiesId b.id op))) && noRevive rest
  | VMOp.rejected b :: rest =>
      (rest.all (fun op => !(verifiesId b.id op))) && noRevive rest

/-! ## Store lemmas -/

theorem GetPrefixInfo_PutPrefixInfo (db : Store) (pfx : List Nat) (i : PrefixInfo) :
    GetPrefixInfo (PutPrefixInfo db pfx i) pfx = some i := by
  induction db with
  | nil => simp [PutPrefixInfo, GetPrefixInfo]
  | cons hd rest ih =>
      obtain ⟨q, j⟩ := hd
      by_cases h : q = pfx <;> simp [PutPrefixInfo, GetPrefixInfo, h, ih]

/-- Success characterization of addLife: with an existing entry and every
divisor nonzero, the expiry grows by ExpiryTime / units / prefixUnits /
(prefixUnits / PrefixRenewalDiscount) and nothing else changes. -/
theorem addLife_ok (pu : List Nat → Nat) (expiryTime renewalDiscount : Nat)
    (db : Store) (pfx : List Nat) (i : PrefixInfo)
    (hget : GetPrefixInfo db pfx = some i) (hunits : 1 ≤ i.units)
    (hpen : 1 ≤ pu pfx / renewalDiscount) :
    addLife pu expiryTime renewalDiscount db pfx =
      (none, PutPrefixInfo db pfx
        ⟨i.owner, i.units,
          (i.expiry + expiryTime / i.units / pu pfx / (pu pfx / renewalDiscount)) % W64⟩) := by
  have hd0 : renewalDiscount ≠ 0 := by
    intro h; rw [h, Nat.div_zero] at hpen; omega
  have hpu0 : pu pfx ≠ 0 := by
    intro h; rw [h, Nat.zero_div] at hpen; omega
  have hnc : ¬(i.units = 0 ∨ pu pfx = 0 ∨ pu pfx / renewalDiscount = 0) := by
    push_neg
    exact ⟨by omega, hpu0, by omega⟩
  unfold addLife
  rw [hget]
  simp only [if_neg hd0, if_neg hnc]

/-! ## C1: lifeline expiry arithmetic -/

/-- C1 counterexample.  The source computes the penalty
`prefixUnits(prefix) / PrefixRenewalDiscount` with no minimum of 1: with
prefixUnits = 1 and PrefixRenewalDiscount = 2 the penalty is 0 and the Go
code divides by zero (a panic) on an existing entry, instead of adding the
`ExpiryTime / units / prefixUnits / max 1 penalty` seconds the claim
states. -/
theorem addLife_minPenalty_cex :
    (addLife (fun _ => 1) 100 2 [([7], ⟨[9], 1, 50⟩)] [7]).1 = some TxErr.divByZero ∧
    GetPrefixInfo (addLife (fun _ => 1) 100 2 [([7], ⟨[9], 1, 50⟩)] [7]).2 [7] ≠
      some ⟨[9], 1, 50 + 100 / 1 / 1 / max 1 (1 / 2)⟩ := by
  decide

/-- C1 amended: for every existing entry, whenever the integer-division
penalty `prefixUnits(prefix) / PrefixRenewalDiscount` is at least 1 (the
code has no minimum-of-1 clamp; a zero penalty is a division-by-zero panic)
and the entry's units are positive, executing a lifeline adds exactly
`ExpiryTime / units / prefixUnits(prefix) / penalty` seconds to the expiry
and leaves owner and units unchanged. -/
theorem addLife_extends_expiry (pu : List Nat → Nat)
    (expiryTime renewalDiscount : Nat) (db : Store) (pfx : List Nat)
    (i : PrefixInfo) (hget : GetPrefixInfo db pfx = some i)
    (hunits : 1 ≤ i.units) (hpen : 1 ≤ pu pfx / renewalDiscount)
    (hov : i.expiry + expiryTime < W64) :
    (addLife pu expiryTime renewalDiscount db pfx).1 = none ∧
    GetPrefixInfo (addLife pu expiryTime renewalDiscount db pfx).2 pfx =
      some ⟨i.owner, i.units,
        i.expiry + expiryTime / i.units / pu pfx / (pu pfx / renewalDiscount)⟩ := by
  have hle : expiryTime / i.units / pu pfx / (pu pfx / renewalDiscount) ≤ expiryTime :=
    le_trans (Nat.div_le_self _ _) (le_trans (Nat.div_le_self _ _) (Nat.div_le_self _ _))
  have hmod : (i.expiry + expiryTime / i.units / pu pfx / (pu pfx / renewalDiscount)) % W64 =
      i.expiry + expiryTime / i.units / pu pfx / (pu pfx / renewalDiscount) :=
    Nat.mod_eq_of_lt (by omega)
  rw [addLife_ok pu expiryTime renewalDiscount db pfx i hget hunits hpen]
  exact ⟨rfl, by simp [GetPrefixInfo_PutPrefixInfo, hmod]⟩

/-- C1 witness: a concrete lifeline execution, prefixUnits = 2, discount 2,
so the penalty is 1 and 100 / 1 / 2 / 1 = 50 seconds are added. -/
theorem addLife_extends_expiry_witness :
    (addLife (fun _ => 2) 100 2 [([7], ⟨[9], 1, 50⟩)] [7]).1 = none ∧
    GetPrefixInfo (addLife (fun _ => 2) 100 2 [([7], ⟨[9], 1, 50⟩)] [7]).2 [7] =
      some ⟨[9], 1, 50 + 100 / 1 / 2 / (2 / 2)⟩ :=
  addLife_extends_expiry (fun _ => 2) 100 2 [([7], ⟨[9], 1, 50⟩)] [7] ⟨[9], 1, 50⟩
    (by decide) (by decide) (by decide) (by decide)

/-! ## C2: lifeline error behaviour -/

/-- C2 counterexample.  An entry exists, yet the lifeline does not succeed:
with prefixUnits = 1 and PrefixRenewalDiscount = 2 the penalty is 0 and the
code divides by zero, so "succeeds for every sender and every block time"
fails (the failure is not PrefixMissing, so the stated iff itself holds). -/
theorem lifeline_succeeds_cex :
    GetPrefixInfo [([7], (⟨[9], 1, 50⟩ : PrefixInfo))] [7] = some ⟨[9], 1, 50⟩ ∧
    (LifelineExecute (fun _ => 1) 100 2 [3] 0 [([7], ⟨[9], 1, 50⟩)] [7]).1 ≠ none := by
  decide

/-- C2 amended: a lifeline fails with PrefixMissing iff the prefix has no
registry entry, the store is unchanged on that failure, and when an entry
exists it succeeds for every sender and every block time provided the
penalty `prefixUnits(prefix) / PrefixRenewalDiscount` is at least 1 and the
entry's units are positive (otherwise the code divides by zero) — there is
no owner check and no expiry check. -/
theorem lifeline_missing_iff (pu : List Nat → Nat) (expiryTime renewalDiscount : Nat)
    (sender : List Nat) (blockTime : Nat) (db : Store) (pfx : List Nat) :
    ((LifelineExecute pu expiryTime renewalDiscount sender blockTime db pfx).1 =
        some TxErr.prefixMissing ↔ GetPrefixInfo db pfx = none) ∧
    (GetPrefixInfo db pfx = none →
      (LifelineExecute pu expiryTime renewalDiscount sender blockTime db pfx).2 = db) ∧
    (∀ i, GetPrefixInfo db pfx = some i → 1 ≤ i.units → 1 ≤ pu pfx / renewalDiscount →
      (LifelineExecute pu expiryTime renewalDiscount sender blockTime db pfx).1 = none) := by
  refine ⟨?_, ?_, ?_⟩
  · cases hget : GetPrefixInfo db pfx with
    | none => simp [LifelineExecute, addLife, hget]
    | some i =>
        constructor
        · intro h
          exfalso
          by_cases h1 : renewalDiscount = 0
          · simp [LifelineExecute, addLife, hget, h1] at h
          · by_cases h2 : i.units = 0 ∨ pu pfx = 0 ∨ pu pfx / renewalDiscount = 0
            · simp [LifelineExecute, addLife, hget, h1, h2] at h
            · simp [LifelineExecute, addLife, hget, h1, h2] at h
        · intro h
          exact absurd h (by simp)
  · intro h
    simp [LifelineExecute, addLife, h]
  · intro i hget hu hp
    unfold LifelineExecute
    rw [addLife_ok pu expiryTime renewalDiscount db pfx i hget hu hp]

/-- C2 witness: the iff and unchanged store at an empty registry, and a
concrete successful lifeline on an existing entry. -/
theorem lifeline_missing_iff_witness :
    ((LifelineExecute (fun _ => 2) 100 2 [3] 0 [] [7]).1 = some TxErr.prefixMissing ↔
       GetPrefixInfo [] [7] = none) ∧
    (LifelineExecute (fun _ => 2) 100 2 [3] 0 [] [7]).2 = [] ∧
    (LifelineExecute (fun _ => 2) 100 2 [3] 0 [([7], ⟨[9], 1, 50⟩)] [7]).1 = none :=
  ⟨(lifeline_missing_iff (fun _ => 2) 100 2 [3] 0 [] [7]).1,
   (lifeline_missing_iff (fun _ => 2) 100 2 [3] 0 [] [7]).2.1 (by decide),
   (lifeline_missing_iff (fun _ => 2) 100 2 [3] 0 [([7], ⟨[9], 1, 50⟩)] [7]).2.2
     ⟨[9], 1, 50⟩ (by decide) (by decide) (by decide)⟩

/-! ## C3: claim execution -/

/-- C3 counterexample.  The registry has no entry for the 33-byte prefix
"aaa…a", yet executing the claim fails with PublicKeyMismatch (the test's
first case): a pubkey-shaped prefix that differs from the sender never
succeeds, so "no entry (or expired) implies success" is false as stated. -/
theorem claimExecute_precheck_cex :
    GetPrefixInfo ([] : Store) (List.replicate 33 97) = none ∧
    (ClaimExecute (fun _ => 1) 100 (List.replicate 33 1) 1 [] (List.replicate 33 97)).1 =
      some TxErr.publicKeyMismatch := by
  decide

/-- C3 amended: provided the prefix passes the public-key pre-check (a
33-byte prefix must equal the sender), a claim at block time t succeeds when
the registry has no entry or only an entry with expiry ≤ t and leaves the
entry (owner = sender, units = prefixUnits(prefix), expiry = t + ExpiryTime);
an entry with expiry > t fails with PrefixNotExpired and the store is
unchanged. -/
theorem claimExecute_spec (pu : List Nat → Nat) (expiryTime : Nat)
    (sender : List Nat) (t : Nat) (db : Store) (pfx : List Nat)
    (hpre : ¬(pfx.length = 33 ∧ pfx ≠ sender)) (hov : t + expiryTime < W64) :
    ((∀ i ∈ GetPrefixInfo db pfx, i.expiry ≤ t) →
      (ClaimExecute pu expiryTime sender t db pfx).1 = none ∧
      GetPrefixInfo (ClaimExecute pu expiryTime sender t db pfx).2 pfx =
        some ⟨sender, pu pfx, t + expiryTime⟩) ∧
    (∀ i, GetPrefixInfo db pfx = some i → t < i.expiry →
      ClaimExecute pu expiryTime sender t db pfx = (some TxErr.prefixNotExpired, db)) := by
  have hmod : (t + expiryTime) % W64 = t + expiryTime := Nat.mod_eq_of_lt hov
  constructor
  · intro hlive
    cases hget : GetPrefixInfo db pfx with
    | none =>
        simp [ClaimExecute, hget, hpre, GetPrefixInfo_PutPrefixInfo, hmod]
    | some i =>
        have hle : ¬ t < i.expiry := by
          have := hlive i (by rw [hget]; rfl)
          omega
        simp [ClaimExecute, hget, hpre, hle, GetPrefixInfo_PutPrefixInfo, hmod]
  · intro i hget hexp
    simp [ClaimExecute, hget, hpre, hexp]

/-- C3 witness: a fresh claim on an empty registry, and a PrefixNotExpired
failure on a live entry, both concrete. -/
theorem claimExecute_spec_witness :
    ((ClaimExecute (fun _ => 4) 100 [1] 1 [] [7]).1 = none ∧
      GetPrefixInfo (ClaimExecute (fun _ => 4) 100 [1] 1 [] [7]).2 [7] =
        some ⟨[1], 4, 101⟩) ∧
    ClaimExecute (fun _ => 4) 100 [1] 1 [([7], ⟨[2], 4, 50⟩)] [7] =
      (some TxErr.prefixNotExpired, [([7], ⟨[2], 4, 50⟩)]) :=
  ⟨(claimExecute_spec (fun _ => 4) 100 [1] 1 [] [7] (by decide) (by decide)).1
      (by simp [GetPrefixInfo]),
   (claimExecute_spec (fun _ => 4) 100 [1] 1 [([7], ⟨[2], 4, 50⟩)] [7] (by decide)
      (by decide)).2 ⟨[2], 4, 50⟩ (by decide) (by decide)⟩

/-! ## Recents: cost and difficulty lemmas -/

/-- Closed form of the cost adjustment: clamp up to the floor, add the
shortfall when early, else subtract the excess down to the floor at most.
The overflow hypotheses keep the uint64 arithmetic exact. -/
theorem newBlockCost_eq (minB : Nat) (bt ct tm : Int) (lastCost : Nat)
    (hov : max lastCost minB + (bt - (ct - tm)).toNat < W64)
    (hs : ct - tm - bt < (W64 : Int)) :
    newBlockCost minB bt ct tm lastCost =
      if ct - tm < bt then max lastCost minB + (bt - (ct - tm)).toNat
      else max minB (lastCost - (ct - tm - bt).toNat) := by
  simp only [newBlockCost, W64, Nat.cast_ofNat] at *
  have hc0 : (if lastCost < minB then minB else lastCost) = max lastCost minB := by
    split <;> omega
  rw [hc0]
  by_cases hlt : ct - tm < bt
  · rw [if_pos hlt, if_pos hlt]
    have h0 : (0 : Int) ≤ bt - (ct - tm) := by omega
    have h2 : bt - (ct - tm) < (18446744073709551616 : Int) := by omega
    rw [Int.emod_eq_of_lt h0 h2]
    exact Nat.mod_eq_of_lt (by omega)
  · rw [if_neg hlt, if_neg hlt]
    have h0 : (0 : Int) ≤ ct - tm - bt := by omega
    rw [Int.emod_eq_of_lt h0 hs]
    split <;> omega

/-- The cost adjustment never returns below the MinBlockCost floor. -/
theorem newBlockCost_ge (minB : Nat) (bt ct tm : Int) (lastCost : Nat)
    (hov : max lastCost minB + (bt - (ct - tm)).toNat < W64) :
    minB ≤ newBlockCost minB bt ct tm lastCost := by
  simp only [newBlockCost, W64, Nat.cast_ofNat] at *
  have hc0 : (if lastCost < minB then minB else lastCost) = max lastCost minB := by
    split <;> omega
  rw [hc0]
  by_cases hlt : ct - tm < bt
  · rw [if_pos hlt]
    have h0 : (0 : Int) ≤ bt - (ct - tm) := by omega
    have h2 : bt - (ct - tm) < (18446744073709551616 : Int) := by omega
    rw [Int.emod_eq_of_lt h0 h2]
    omega
  · rw [if_neg hlt]
    split <;> omega

/-- Closed form of the difficulty adjustment: clamp up to the floor, add one
on overshoot, subtract `elapsed/LookbackWindow + 1` down to the floor at most
on undershoot, keep otherwise. -/
theorem newMinDifficulty_eq (minD tT : Nat) (L ct tm : Int) (lastD n : Nat)
    (hd : max lastD minD + 1 < W64) (hel : 0 ≤ ct - tm)
    (hel2 : ct - tm < 9223372036854775808) (hL : 0 < L) :
    newMinDifficulty minD tT L ct tm lastD n =
      if tT < n then max lastD minD + 1
      else if n < tT then max minD (lastD - (((ct - tm).tdiv L).toNat + 1))
      else max lastD minD := by
  simp only [newMinDifficulty, W64, Nat.cast_ofNat] at *
  have hc0 : (if lastD < minD then minD else lastD) = max lastD minD := by
    split <;> omega
  rw [hc0]
  by_cases h1 : tT < n
  · rw [if_pos h1, if_pos h1]
    exact Nat.mod_eq_of_lt (by omega)
  · rw [if_neg h1, if_neg h1]
    by_cases h2 : n < tT
    · rw [if_pos h2, if_pos h2]
      obtain ⟨m, hm⟩ : ∃ m : Nat, ct - tm = (m : Int) :=
        ⟨(ct - tm).toNat, (Int.toNat_of_nonneg hel).symm⟩
      obtain ⟨k, hk⟩ : ∃ k : Nat, L = (k : Int) :=
        ⟨L.toNat, (Int.toNat_of_nonneg (le_of_lt hL)).symm⟩
      rw [hm, hk]
      have htd : ((m : Int)).tdiv (k : Int) = ((m / k : Nat) : Int) := rfl
      rw [htd]
      have hmlt : m < 9223372036854775808 := by omega
      have hqm : m / k ≤ m := Nat.div_le_self m k
      have hq0 : (0 : Int) ≤ ((m / k : Nat) : Int) := by positivity
      have hqlt : ((m / k : Nat) : Int) < (18446744073709551616 : Int) := by
        omega
      rw [Int.emod_eq_of_lt hq0 hqlt]
      have htn : (((m / k : Nat) : Int)).toNat = m / k := Int.toNat_natCast _
      rw [htn]
      have hm2 : (m / k + 1) % 18446744073709551616 = m / k + 1 :=
        Nat.mod_eq_of_lt (by omega)
      rw [hm2]
      split <;> omega
    · rw [if_neg h2, if_neg h2]

/-- The difficulty adjustment never returns below the MinDifficulty floor. -/
theorem newMinDifficulty_ge (minD tT : Nat) (L ct tm : Int) (lastD n : Nat)
    (hd : max lastD minD + 1 < W64) :
    minD ≤ newMinDifficulty minD tT L ct tm lastD n := by
  simp only [newMinDifficulty, W64, Nat.cast_ofNat] at *
  have hc0 : (if lastD < minD then minD else lastD) = max lastD minD := by
    split <;> omega
  rw [hc0]
  by_cases h1 : tT < n
  · rw [if_pos h1]
    omega
  · rw [if_neg h1]
    by_cases h2 : n < tT
    · rw [if_pos h2]
      generalize ((((ct - tm).tdiv L) % ((18446744073709551616 : Nat) : Int)).toNat + 1) %
        18446744073709551616 = eW
      split <;> omega
    · rw [if_neg h2]
      omega

/-- The cost component of Recents is the cost adjustment applied to the last
block. -/
theorem Recents_cost_proj (minB minD tT : Nat) (L bt ct : Int) (lb : BlockM)
    (anc : List BlockM) :
    (Recents minB minD tT L bt ct lb anc).2.2.1 =
      newBlockCost minB bt ct lb.tmstmp lb.cost := rfl

/-- The difficulty component of Recents is the difficulty adjustment applied
to the last block and the number of distinct recent transaction ids. -/
theorem Recents_difficulty_proj (minB minD tT : Nat) (L bt ct : Int) (lb : BlockM)
    (anc : List BlockM) :
    (Recents minB minD tT L bt ct lb anc).2.2.2 =
      newMinDifficulty minD tT L ct lb.tmstmp lb.difficulty
        ((Recents minB minD tT L bt ct lb anc).2.1).length := rfl

/-! ## C4: block cost rule -/

/-- C4 counterexample.  With MinBlockCost = 1 and a last block whose cost 0
lies below the floor (a genesis built with smaller parameters), elapsed
3 < BlockTarget 10: the code clamps the cost up to 1 first and returns
1 + 7 = 8, not lastCost + (BlockTarget - elapsed) = 0 + 7. -/
theorem recents_cost_cex :
    (Recents 1 0 10 60 10 3 ⟨1, 0, 0, [], 5, 0⟩ []).2.2.1 = 8 ∧
    (8 : Nat) ≠ 0 + (10 - 3) := by
  decide

/-- C4 amended: with elapsed = currTime - lastBlock.timestamp, if
elapsed < BlockTarget the returned cost is
`max(lastCost, MinBlockCost) + (BlockTarget - elapsed)` (the code clamps the
last cost up to the floor before adding); otherwise it is
`max(MinBlockCost, lastCost - (elapsed - BlockTarget))` as claimed, and the
returned cost is never below MinBlockCost. -/
theorem recents_cost_eq (minB minD tT : Nat) (L bt ct : Int) (lb : BlockM)
    (anc : List BlockM)
    (hov : max lb.cost minB + (bt - (ct - lb.tmstmp)).toNat < W64)
    (hs : ct - lb.tmstmp - bt < (W64 : Int)) :
    (Recents minB minD tT L bt ct lb anc).2.2.1 =
      (if ct - lb.tmstmp < bt then max lb.cost minB + (bt - (ct - lb.tmstmp)).toNat
       else max minB (lb.cost - (ct - lb.tmstmp - bt).toNat)) ∧
    minB ≤ (Recents minB minD tT L bt ct lb anc).2.2.1 := by
  rw [Recents_cost_proj]
  exact ⟨newBlockCost_eq minB bt ct lb.tmstmp lb.cost hov hs,
         newBlockCost_ge minB bt ct lb.tmstmp lb.cost hov⟩

/-- C4 witness: the early-block branch at concrete values, cost below the
floor. -/
theorem recents_cost_eq_witness :
    (Recents 1 0 10 60 10 3 ⟨1, 0, 0, [], 5, 0⟩ []).2.2.1 =
      (if (3 : Int) - 0 < 10 then max 0 1 + ((10 : Int) - (3 - 0)).toNat
       else max 1 (0 - ((3 : Int) - 0 - 10).toNat)) ∧
    1 ≤ (Recents 1 0 10 60 10 3 ⟨1, 0, 0, [], 5, 0⟩ []).2.2.1 :=
  recents_cost_eq 1 0 10 60 10 3 ⟨1, 0, 0, [], 5, 0⟩ [] (by decide) (by decide)

/-! ## C5: minimum difficulty rule -/

/-- C5 counterexample.  With MinDifficulty = 5 and a last block whose
difficulty 1 lies below the floor, and n = TargetTransactions (both 0), the
code clamps the difficulty up to the floor and returns 5, not the last
block's difficulty 1 unchanged. -/
theorem recents_difficulty_cex :
    ((Recents 0 5 0 60 10 3 ⟨1, 0, 0, [], 1, 0⟩ []).2.1).length = 0 ∧
    (Recents 0 5 0 60 10 3 ⟨1, 0, 0, [], 1, 0⟩ []).2.2.2 = 5 ∧ (5 : Nat) ≠ 1 := by
  decide

/-- C5 amended: with n the number of distinct transaction ids in the
lookback window, the returned minimum difficulty is
`max(lastDiff, MinDifficulty) + 1` when n > TargetTransactions,
`max(MinDifficulty, lastDiff - (elapsed/LookbackWindow + 1))` when
n < TargetTransactions (as claimed), and `max(lastDiff, MinDifficulty)` when
n = TargetTransactions: the code clamps the last difficulty up to the floor
before applying the rules. -/
theorem recents_difficulty_eq (minB minD tT : Nat) (L bt ct : Int) (lb : BlockM)
    (anc : List BlockM)
    (hd : max lb.difficulty minD + 1 < W64) (hel : 0 ≤ ct - lb.tmstmp)
    (hel2 : ct - lb.tmstmp < 9223372036854775808) (hL : 0 < L) :
    (Recents minB minD tT L bt ct lb anc).2.2.2 =
      if tT < ((Recents minB minD tT L bt ct lb anc).2.1).length then
        max lb.difficulty minD + 1
      else if ((Recents minB minD tT L bt ct lb anc).2.1).length < tT then
        max minD (lb.difficulty - (((ct - lb.tmstmp).tdiv L).toNat + 1))
      else max lb.difficulty minD := by
  rw [Recents_difficulty_proj]
  exact newMinDifficulty_eq minD tT L ct lb.tmstmp lb.difficulty _ hd hel hel2 hL

/-- C5 witness: the n = TargetTransactions case at concrete values,
difficulty below the floor. -/
theorem recents_difficulty_eq_witness :
    (Recents 0 5 0 60 10 3 ⟨1, 0, 0, [], 1, 0⟩ []).2.2.2 =
      if 0 < ((Recents 0 5 0 60 10 3 ⟨1, 0, 0, [], 1, 0⟩ []).2.1).length then
        max 1 5 + 1
      else if ((Recents 0 5 0 60 10 3 ⟨1, 0, 0, [], 1, 0⟩ []).2.1).length < 0 then
        max 5 (1 - ((((3 : Int) - 0).tdiv 60).toNat + 1))
      else max 1 5 :=
  recents_difficulty_eq 0 5 0 60 10 3 ⟨1, 0, 0, [], 1, 0⟩ [] (by decide) (by decide)
    (by decide) (by decide)

/-! ## C10: floors hold for every input -/

/-- C10: for every last block, including one whose cost or difficulty lies
below the configured floors, the cost returned by Recents is at least
MinBlockCost and the minimum difficulty returned is at least MinDifficulty:
both inputs are clamped up to their floors before the adjustment rules run.
The two hypotheses only exclude uint64 wrap-around of the additions. -/
theorem recents_floors (minB minD tT : Nat) (L bt ct : Int) (lb : BlockM)
    (anc : List BlockM)
    (hov : max lb.cost minB + (bt - (ct - lb.tmstmp)).toNat < W64)
    (hd : max lb.difficulty minD + 1 < W64) :
    minB ≤ (Recents minB minD tT L bt ct lb anc).2.2.1 ∧
    minD ≤ (Recents minB minD tT L bt ct lb anc).2.2.2 := by
  rw [Recents_cost_proj, Recents_difficulty_proj]
  exact ⟨newBlockCost_ge minB bt ct lb.tmstmp lb.cost hov,
         newMinDifficulty_ge minD tT L ct lb.tmstmp lb.difficulty _ hd⟩

/-- C10 witness: a genesis-like last block with cost 0 and difficulty 0,
both below the configured floors 5 and 7. -/
theorem recents_floors_witness :
    5 ≤ (Recents 5 7 10 60 10 3 ⟨1, 0, 0, [], 0, 0⟩ []).2.2.1 ∧
    7 ≤ (Recents 5 7 10 60 10 3 ⟨1, 0, 0, [], 0, 0⟩ []).2.2.2 :=
  recents_floors 5 7 10 60 10 3 ⟨1, 0, 0, [], 0, 0⟩ [] (by decide) (by decide)

/-! ## C6: the lookback-window reader -/

/-- Every block the walk visits comes from the chain and satisfied the loop
condition: inside the window, or carrying the starting id. -/
theorem readWindow_mem (L ct : Int) (lid : Nat) (f : BlockM → Bool)
    (xs : List BlockM) (x : BlockM) (hx : x ∈ readWindow L ct lid f xs) :
    x ∈ xs ∧ (ct - x.tmstmp ≤ L ∨ x.id = lid) := by
  induction xs with
  | nil => simp [readWindow] at hx
  | cons b rest ih =>
      simp only [readWindow] at hx
      by_cases h1 : ct - b.tmstmp ≤ L ∨ b.id = lid
      · rw [if_pos h1] at hx
        by_cases h2 : f b
        · rw [if_pos h2] at hx
          by_cases h3 : b.prnt = 0
          · rw [if_pos h3] at hx
            simp at hx
            subst hx
            exact ⟨List.mem_cons_self _ _, h1⟩
          · rw [if_neg h3] at hx
            rcases List.mem_cons.mp hx with h | h
            · subst h
              exact ⟨List.mem_cons_self _ _, h1⟩
            · obtain ⟨hm, hc⟩ := ih h
              exact ⟨List.mem_cons_of_mem _ hm, hc⟩
        · rw [if_neg h2] at hx
          simp at hx
          subst hx
          exact ⟨List.mem_cons_self _ _, h1⟩
      · rw [if_neg h1] at hx
        simp at hx

/-- The visited blocks are an initial segment of the chain: visit order is
child-to-parent. -/
theorem readWindow_sublist (L ct : Int) (lid : Nat) (f : BlockM → Bool) :
    ∀ xs : List BlockM, readWindow L ct lid f xs <+: xs := by
  intro xs
  induction xs with
  | nil => simp [readWindow]
  | cons b rest ih =>
      simp only [readWindow]
      split
      · split
        · split
          · exact ⟨rest, rfl⟩
          · obtain ⟨t, ht⟩ := ih
            exact ⟨t, by simp [ht]⟩
        · exact ⟨rest, rfl⟩
      · exact ⟨b :: rest, rfl⟩

/-- The walk stops as soon as the callback returns false or genesis is
visited: every earlier visited block had a true callback and a parent. -/
theorem readWindow_chainStop (L ct : Int) (lid : Nat) (f : BlockM → Bool) :
    ∀ xs : List BlockM, chainStop f (readWindow L ct lid f xs) = true := by
  intro xs
  induction xs with
  | nil => simp [readWindow, chainStop]
  | cons b rest ih =>
      simp only [readWindow]
      by_cases h1 : ct - b.tmstmp ≤ L ∨ b.id = lid
      · rw [if_pos h1]
        by_cases h2 : f b
        · rw [if_pos h2]
          by_cases h3 : b.prnt = 0
          · rw [if_pos h3]
            rfl
          · rw [if_neg h3]
            cases hw : readWindow L ct lid f rest with
            | nil => rfl
            | cons c cs =>
                have hcs : chainStop f (c :: cs) = true := by
                  rw [← hw]
                  exact ih
                simp [chainStop, h2, h3, hcs]
        · rw [if_neg h2]
          rfl
      · rw [if_neg h1]
        rfl

/-- C6: starting at the block named lastID (here `b`, with no ancestor
reusing its id), the walk always visits `b` first regardless of its age,
visits beyond it only ancestors within the lookback window, visits in
child-to-parent order (an initial segment of the chain), and stops as soon
as the callback returns false or genesis has been visited. -/
theorem readWindow_correct (L ct : Int) (b : BlockM) (rest : List BlockM)
    (f : BlockM → Bool) (huniq : ∀ x ∈ rest, x.id ≠ b.id) :
    (readWindow L ct b.id f (b :: rest)).head? = some b ∧
    readWindow L ct b.id f (b :: rest) <+: b :: rest ∧
    (∀ x ∈ (readWindow L ct b.id f (b :: rest)).tail, ct - x.tmstmp ≤ L) ∧
    chainStop f (readWindow L ct b.id f (b :: rest)) = true := by
  have hcond : ct - b.tmstmp ≤ L ∨ b.id = b.id := Or.inr rfl
  refine ⟨?_, readWindow_sublist L ct b.id f (b :: rest), ?_,
    readWindow_chainStop L ct b.id f (b :: rest)⟩
  · simp only [readWindow]
    rw [if_pos (Or.inr trivial : ct - b.tmstmp ≤ L ∨ True)]
    by_cases h2 : f b
    · rw [if_pos h2]
      by_cases h3 : b.prnt = 0
      · rw [if_pos h3]
        rfl
      · rw [if_neg h3]
        rfl
    · rw [if_neg h2]
      rfl
  · intro x hx
    simp only [readWindow] at hx
    rw [if_pos (Or.inr trivial : ct - b.tmstmp ≤ L ∨ True)] at hx
    by_cases h2 : f b
    · rw [if_pos h2] at hx
      by_cases h3 : b.prnt = 0
      · rw [if_pos h3] at hx
        simp at hx
      · rw [if_neg h3] at hx
        simp only [List.tail_cons] at hx
        obtain ⟨hm, hc⟩ := readWindow_mem L ct b.id f rest x hx
        rcases hc with h | h
        · exact h
        · exact absurd h (huniq x hm)
    · rw [if_neg h2] at hx
      simp at hx

/-- C6 witness: a two-block chain whose parent lies outside the window; the
walk visits exactly the start block. -/
theorem readWindow_correct_witness :
    (readWindow 10 5 1 (fun _ => true)
        [⟨1, 2, 0, [], 0, 0⟩, ⟨2, 0, -100, [], 0, 0⟩]).head? =
      some ⟨1, 2, 0, [], 0, 0⟩ ∧
    readWindow 10 5 1 (fun _ => true) [⟨1, 2, 0, [], 0, 0⟩, ⟨2, 0, -100, [], 0, 0⟩] <+:
      [⟨1, 2, 0, [], 0, 0⟩, ⟨2, 0, -100, [], 0, 0⟩] ∧
    chainStop (fun _ => true)
      (readWindow 10 5 1 (fun _ => true)
        [⟨1, 2, 0, [], 0, 0⟩, ⟨2, 0, -100, [], 0, 0⟩]) = true :=
  ⟨(readWindow_correct 10 5 ⟨1, 2, 0, [], 0, 0⟩ [⟨2, 0, -100, [], 0, 0⟩] (fun _ => true)
      (by decide)).1,
   (readWindow_correct 10 5 ⟨1, 2, 0, [], 0, 0⟩ [⟨2, 0, -100, [], 0, 0⟩] (fun _ => true)
      (by decide)).2.1,
   (readWindow_correct 10 5 ⟨1, 2, 0, [], 0, 0⟩ [⟨2, 0, -100, [], 0, 0⟩] (fun _ => true)
      (by decide)).2.2.2⟩

/-! ## C7, C8: the signer -/

/-- Reading back an in-range write. -/
theorem list_getD_set (l : List Nat) (i x : Nat) (h : i < l.length) :
    (l.set i x).getD i 0 = x := by
  induction l generalizing i with
  | nil => simp at h
  | cons a t ih =>
      cases i with
      | zero => rfl
      | succ n =>
          simp only [List.set, List.getD_cons_succ]
          exact ih n (by simpa using h)

/-- Writing back the value already present changes nothing. -/
theorem list_set_getD_self (l : List Nat) (i : Nat) (h : i < l.length) :
    l.set i (l.getD i 0) = l := by
  induction l generalizing i with
  | nil => rfl
  | cons a t ih =>
      cases i with
      | zero => simp [List.getD_cons_zero]
      | succ n =>
          simp only [List.getD_cons_succ, List.set, List.cons.injEq, true_and]
          exact ih n (by simpa using h)

/-- C7: for every digest and key, recovering from a freshly produced
signature returns the signer's public key: the +27 adjustment Sign applies
to byte 64 is exactly undone by DeriveSender on its copy before recovery.
The hypotheses are the primitive's contract (65-byte signatures over byte
values, recovery inverts signing), which the spec scopes out. -/
theorem deriveSender_sign_roundtrip {K P : Type}
    (cryptoSign : List Nat → K → List Nat)
    (sigToPub : List Nat → List Nat → Option P) (pub : K → P)
    (dh : List Nat) (k : K)
    (hlen : (cryptoSign dh k).length = 65)
    (hbytes : ∀ b ∈ cryptoSign dh k, b < 256)
    (hcontract : sigToPub dh (cryptoSign dh k) = some (pub k)) :
    (DeriveSender sigToPub dh (Sign cryptoSign dh k)).1 = some (pub k) := by
  set sig := cryptoSign dh k with hsig
  have hSign : Sign cryptoSign dh k = sig.set 64 ((sig.getD 64 0 + 27) % 256) := by
    simp only [Sign, ← hsig]
  have h64 : 64 < sig.length := by omega
  have hslen : (Sign cryptoSign dh k).length = 65 := by
    rw [hSign, List.length_set]
    exact hlen
  have hb : sig.getD 64 0 < 256 := by
    apply hbytes
    rw [List.getD_eq_getElem sig 0 h64]
    exact List.getElem_mem h64
  have htake : (Sign cryptoSign dh k).take 65 = Sign cryptoSign dh k :=
    List.take_of_length_le (by omega)
  have hcpy : ((Sign cryptoSign dh k).take 65).set 64
      ((((Sign cryptoSign dh k).take 65).getD 64 0 + 229) % 256) = sig := by
    rw [htake, hSign, list_getD_set sig 64 _ h64, List.set_set]
    have harith : ((sig.getD 64 0 + 27) % 256 + 229) % 256 = sig.getD 64 0 := by
      omega
    rw [harith]
    exact list_set_getD_self sig 64 h64
  show (DeriveSender sigToPub dh (Sign cryptoSign dh k)).1 = some (pub k)
  unfold DeriveSender
  rw [if_neg (by omega : ¬(Sign cryptoSign dh k).length ≠ 65)]
  show sigToPub dh (((Sign cryptoSign dh k).take 65).set 64
      ((((Sign cryptoSign dh k).take 65).getD 64 0 + 229) % 256)) = some (pub k)
  rw [hcpy, hsig]
  exact hcontract

/-- C7 witness: a toy primitive satisfying the contract, recovered key 3. -/
theorem deriveSender_sign_roundtrip_witness :
    (DeriveSender
        (fun _ s => if s = List.replicate 65 7 then some 3 else none) [0]
        (Sign (fun _ _ => List.replicate 65 7) [0] 0)).1 = some 3 :=
  deriveSender_sign_roundtrip (fun _ _ => List.replicate 65 7)
    (fun _ s => if s = List.replicate 65 7 then some 3 else none) (fun _ => 3) [0] 0
    (by decide) (by decide) (by decide)

/-- C8: a signature whose length is not 65 is rejected as InvalidSignature
with the same result for every recovery primitive (no recovery is
attempted) and the caller's buffer returned unchanged; and for every
65-byte signature the caller's buffer comes back byte-for-byte unchanged,
the -27 adjustment having been applied to a copy only. -/
theorem deriveSender_frame {P : Type} (dh sig : List Nat) :
    (sig.length ≠ 65 → ∀ sigToPub : List Nat → List Nat → Option P,
      DeriveSender sigToPub dh sig = (none, some SigErr.invalidSignature, sig)) ∧
    (sig.length = 65 → ∀ sigToPub : List Nat → List Nat → Option P,
      (DeriveSender sigToPub dh sig).2.2 = sig) := by
  constructor
  · intro h sigToPub
    simp [DeriveSender, h]
  · intro _ sigToPub
    unfold DeriveSender
    split
    · rfl
    · rfl

/-- C8 witness: a 2-byte signature is rejected with the buffer unchanged; a
65-byte signature's buffer also comes back unchanged. -/
theorem deriveSender_frame_witness :
    DeriveSender (fun _ _ => some 0) [5] [0, 1] =
      (none, some SigErr.invalidSignature, [0, 1]) ∧
    (DeriveSender (fun _ _ => some 0) [5] (List.replicate 65 9)).2.2 =
      List.replicate 65 9 :=
  ⟨(deriveSender_frame [5] [0, 1]).1 (by decide) (fun _ _ => some 0),
   (deriveSender_frame [5] (List.replicate 65 9)).2 (by decide) (fun _ _ => some 0)⟩

/-! ## C9: the verified-blocks lifecycle -/

/-- An id outside verifiedBlocks stays outside as long as no Verified call
re-adds it: Accepted and Rejected only remove, Verified adds only its own
block's id. -/
theorem vmRun_not_mem (ops : List VMOp) (s : VMState) (i : Nat)
    (hs : i ∉ s.verifiedBlocks)
    (hops : ∀ b, VMOp.verified b ∈ ops → b.id ≠ i) :
    i ∉ (vmRun s ops).verifiedBlocks := by
  induction ops generalizing s with
  | nil => simpa [vmRun] using hs
  | cons op rest ih =>
      show i ∉ (vmRun (vmStep s op) rest).verifiedBlocks
      apply ih
      · cases op with
        | verified b =>
            have hb : b.id ≠ i := hops b (List.mem_cons_self _ _)
            simp only [vmStep, vmVerified]
            intro hmem
            by_cases hin : b.id ∈ s.verifiedBlocks
            · rw [if_pos hin] at hmem
              exact hs hmem
            · rw [if_neg hin] at hmem
              rcases List.mem_cons.mp hmem with h | h
              · exact hb h.symm
              · exact hs h
        | accepted b =>
            simp only [vmStep, vmAccepted]
            intro hmem
            exact hs (List.mem_of_mem_filter hmem)
        | rejected b =>
            simp only [vmStep, vmRejected]
            intro hmem
            exact hs (List.mem_of_mem_filter hmem)
      · intro b hb
        exact hops b (List.mem_cons_of_mem _ hb)

/-- A block id just removed by Accepted or Rejected is not in verifiedBlocks. -/
theorem filter_ne_not_mem (l : List Nat) (j : Nat) :
    j ∉ l.filter (fun x => x != j) := by
  intro h
  have := List.of_mem_filter h
  simp at this

/-- After a noRevive call sequence, every id that was passed to Accepted or
Rejected is outside verifiedBlocks, from any starting state. -/
theorem vmRun_terminal_not_mem (ops : List VMOp) (s : VMState)
    (hnr : noRevive ops = true) :
    ∀ i ∈ terminalIds ops, i ∉ (vmRun s ops).verifiedBlocks := by
  induction ops generalizing s with
  | nil => simp [terminalIds]
  | cons op rest ih =>
      intro i hi
      cases op with
      | verified b =>
          have hnr2 : noRevive rest = true := by simpa [noRevive] using hnr
          exact ih (vmStep s (VMOp.verified b)) hnr2 i (by simpa [terminalIds] using hi)
      | accepted b =>
          have hnr' := hnr
          simp only [noRevive, Bool.and_eq_true, List.all_eq_true] at hnr'
          obtain ⟨hall, hnr2⟩ := hnr'
          rcases List.mem_cons.mp (by simpa [terminalIds] using hi) with h | h
          · subst h
            show b.id ∉ (vmRun (vmStep s (VMOp.accepted b)) rest).verifiedBlocks
            apply vmRun_not_mem
            · simp only [vmStep, vmAccepted]
              exact filter_ne_not_mem _ _
            · intro b2 hb2
              have := hall (VMOp.verified b2) hb2
              simpa [verifiesId] using this
          · exact ih (vmStep s (VMOp.accepted b)) hnr2 i h
      | rejected b =>
          have hnr' := hnr
          simp only [noRevive, Bool.and_eq_true, List.all_eq_true] at hnr'
          obtain ⟨hall, hnr2⟩ := hnr'
          rcases List.mem_cons.mp (by simpa [terminalIds] using hi) with h | h
          · subst h
            show b.id ∉ (vmRun (vmStep s (VMOp.rejected b)) rest).verifiedBlocks
            apply vmRun_not_mem
            · simp only [vmStep, vmRejected]
              exact filter_ne_not_mem _ _
            · intro b2 hb2
              have := hall (VMOp.verified b2) hb2
              simpa [verifiesId] using this
          · exact ih (vmStep s (VMOp.rejected b)) hnr2 i h

/-- C9 counterexample.  The sequence Accepted(1) then Verified(1) is a
sequence of lifecycle calls after which block id 1 both has been passed to
Accepted and sits in verifiedBlocks: Verified re-adds unconditionally, so
disjointness fails for arbitrary sequences as the claim states them. -/
theorem vm_disjoint_cex :
    1 ∈ terminalIds [VMOp.accepted ⟨1, 0⟩, VMOp.verified ⟨1, 0⟩] ∧
    1 ∈ (vmRun vmInit [VMOp.accepted ⟨1, 0⟩, VMOp.verified ⟨1, 0⟩]).verifiedBlocks := by
  decide

/-- C9 amended: in every state reachable from the initial state by a
sequence of Verified, Accepted and Rejected calls in which no block is
Verified after having been passed to Accepted or Rejected (the consensus
engine's ordering contract), the verifiedBlocks map contains no id that was
passed to Accepted or Rejected: both remove the id, and only a later
re-Verify could re-add it. -/
theorem vm_verified_disjoint (ops : List VMOp) (hnr : noRevive ops = true) :
    ∀ i ∈ terminalIds ops, i ∉ (vmRun vmInit ops).verifiedBlocks :=
  vmRun_terminal_not_mem ops vmInit hnr

/-- C9 witness: Verified(1), Accepted(1), Verified(2) is a noRevive
sequence; id 1 was accepted and is not among the verified blocks. -/
theorem vm_verified_disjoint_witness :
    noRevive [VMOp.verified ⟨1, 0⟩, VMOp.accepted ⟨1, 0⟩, VMOp.verified ⟨2, 1⟩] = true ∧
    1 ∉ (vmRun vmInit
      [VMOp.verified ⟨1, 0⟩, VMOp.accepted ⟨1, 0⟩, VMOp.verified ⟨2, 1⟩]).verifiedBlocks :=
  ⟨by decide,
   vm_verified_disjoint [VMOp.verified ⟨1, 0⟩, VMOp.accepted ⟨1, 0⟩, VMOp.verified ⟨2, 1⟩]
     (by decide) 1 (by decide)⟩
